import Mathlib

/-!
Shallow embedding of the verb/setting registry and resolution engine of
`lets.py` (the `Lets` class).  Python dictionaries are modelled as
insertion-ordered association lists, which matches the iteration order
semantics the code relies on.  Operations that print and return an integer
exit code are modelled as pure functions returning the exit code together
with the updated registry state and a flag recording whether
`_save_settings` was called.  An unhandled Python exception (IndexError,
ValueError, AttributeError from `raise`) is modelled as `none` / `Except.error`.
-/

set_option autoImplicit false

namespace Lets

/-- The runtime shape recorded at registration time (`"type": type(default)`
in `register_setting`): Python `str`, `list` or `dict`. -/
inductive SettingKind where
  | scalar
  | list
  | dict
deriving DecidableEq, Repr

/-- A setting value: Python `str`, `list` of `str`, or `dict` mapping `str`
to `str` (modelled as an insertion-ordered association list). -/
inductive SettingValue where
  | str (s : String)
  | list (xs : List String)
  | dict (kvs : List (String × String))
deriving DecidableEq, Repr

/-- One entry of `_registered_settings[context][name]`: the dictionary built
by `register_setting`. -/
structure Setting where
  description : String
  options : Option (List String)
  value : SettingValue
  type : SettingKind
deriving DecidableEq, Repr

/-- `self._registered_settings`: context → (setting name → setting), an
insertion-ordered dict of dicts. -/
abbrev SettingsState := List (String × List (String × Setting))

/-- One entry of `self._verbs`: the handler itself is identified by its
unique `(context, verb)` pair. -/
structure Verb where
  context : String
  verb : String
deriving DecidableEq, Repr

/-- Split a character list at the first occurrence of `sep`; `none` when
`sep` does not occur. -/
def splitFirstAux (sep : Char) : List Char → Option (List Char × List Char)
  | [] => none
  | c :: cs =>
    if c = sep then some ([], cs)
    else (splitFirstAux sep cs).map (fun p => (c :: p.1, p.2))

/-- Python `s.split(sep, 1)` when `sep` occurs in `s`: the parts before and
after the first occurrence.  `none` when `sep` does not occur. -/
def splitFirst (s : String) (sep : Char) : Option (String × String) :=
  (splitFirstAux sep s.data).map (fun p => (⟨p.1⟩, ⟨p.2⟩))

/-- Python `sep in s` for a single-character separator. -/
def containsChar (s : String) (sep : Char) : Bool :=
  (splitFirst s sep).isSome

/-- `arg if "." in arg else "." + arg` followed by `split(".", 1)`:
an unqualified name gets the wildcard context `""`. -/
def splitQualified (arg : String) : String × String :=
  match splitFirst arg '.' with
  | some p => p
  | none => ("", arg)

/-- Python `key_val.split(":", 1)` on a string containing `:`; on a string
without `:` this returns `(s, "")`, a branch the code only reaches after
checking for the separator. -/
def splitKV (s : String) : String × String :=
  match splitFirst s ':' with
  | some p => p
  | none => (s, "")

/-- Python `s.split(":", 1)[1]`: `none` models the `IndexError` raised when
`s` contains no `:`. -/
def afterColon (s : String) : Option String :=
  (splitFirst s ':').map (fun p => p.2)

/-- Python `name.startswith("_")`. -/
def underscored (s : String) : Bool :=
  match s.data with
  | c :: _ => c == '_'
  | [] => false

/-- `self._registered_settings[c][s]` as a safe lookup. -/
def getSetting (st : SettingsState) (c s : String) : Option Setting :=
  match st.lookup c with
  | some ss => ss.lookup s
  | none => none

/-- The stored value of setting `(c, s)`, when registered. -/
def getSettingValue (st : SettingsState) (c s : String) : Option SettingValue :=
  (getSetting st c s).map (fun q => q.value)

/-- In-place mutation `self._registered_settings[c][s]["value"] = v`. -/
def updateValue (st : SettingsState) (c s : String) (v : SettingValue) : SettingsState :=
  st.map (fun p =>
    if p.1 == c then
      (p.1, p.2.map (fun q => if q.1 == s then (q.1, { q.2 with value := v }) else q))
    else p)

/-- The candidate list of `_resolve_setting` (and of the inline search in
`get`): all `(c, s)` with `s == setting_name and context in ["", c]`,
in registration order. -/
def settingCandidates (st : SettingsState) (context name : String) : List (String × String) :=
  st.flatMap (fun p =>
    p.2.filterMap (fun q =>
      if q.1 == name && (context == "" || context == p.1) then some (p.1, q.1) else none))

/-- Outcome of `_resolve_setting`, distinguishing the printed diagnostics:
protected-name rejection, the zero/one/many tie-break. -/
inductive ResolveResult where
  | protectedRejected
  | notFound
  | ambiguous (candidates : List (String × String))
  | found (context name : String)
deriving DecidableEq, Repr

/-- `Lets._resolve_setting`.  The `graceful` flag only controls whether the
zero-match case prints an error, which the result type already records. -/
def resolveSetting (st : SettingsState) (arg : String) (allowProtected : Bool) : ResolveResult :=
  let cn := splitQualified arg
  if underscored cn.2 && !allowProtected then .protectedRejected
  else
    match settingCandidates st cn.1 cn.2 with
    | [] => .notFound
    | [p] => .found p.1 p.2
    | p :: q :: rest => .ambiguous (p :: q :: rest)

/-- Python value equality `==` between two setting values: strings and lists
compare structurally (lists order-sensitively), dicts compare as finite maps
(order-insensitively), values of different runtime types are unequal. -/
def dictSub (a b : List (String × String)) : Bool :=
  a.all (fun p => b.lookup p.1 == some p.2)

/-- Python `!=`-complement on setting values. -/
def valueEq : SettingValue → SettingValue → Bool
  | .str a, .str b => a == b
  | .list a, .list b => a == b
  | .dict a, .dict b => dictSub a b && dictSub b a
  | _, _ => false

/-- Python dict insertion `d[k] = v`: overwrite in place when the key
exists, else append. -/
def dictInsert (m : List (String × String)) (kv : String × String) : List (String × String) :=
  if m.any (fun p => p.1 == kv.1) then m.map (fun p => if p.1 == kv.1 then kv else p)
  else m ++ [kv]

/-- The dict comprehension
`{val[0]: val[1] for val in [key_val.split(":", 1) for key_val in vals]}`. -/
def parseEntries (vals : List String) : List (String × String) :=
  vals.foldl (fun acc v => dictInsert acc (splitKV v)) []

/-- The option-set membership check at the top of `Lets.set`:
`args[1].split(":", 1)[1] if setting["type"] is dict else args[1]` tested
against `setting["options"]`.  `none` models the `IndexError` of the
unguarded `[1]` index; `some false` the `InvalidOptionError` exit. -/
def setOptionsCheck (setting : Setting) (v1 : String) : Option Bool :=
  match setting.options with
  | none => some true
  | some opts =>
    if setting.type == .dict then
      match afterColon v1 with
      | none => none
      | some v => some (opts.contains v)
    else some (opts.contains v1)

/-- The `new_value` computation of `Lets.set`: scalar settings take
`args[1]`, list settings take `args[1:]`, dict settings parse `args[1:]` as
`key:value` entries, failing with the list of malformed entries. -/
def computeNewValue (ty : SettingKind) (v1 : String) (rest : List String) :
    Except (List String) SettingValue :=
  match ty with
  | .scalar => .ok (.str v1)
  | .list => .ok (.list (v1 :: rest))
  | .dict =>
    let invalid := (v1 :: rest).filter (fun v => !containsChar v ':')
    if invalid.isEmpty then .ok (.dict (parseEntries (v1 :: rest)))
    else .error invalid

/-- `Lets.set`: result is `(exit code, new registry, saved?)`; `none` is the
unhandled `IndexError` from the options check on a colon-free first value of
a dict setting. -/
def setOp (st : SettingsState) (args : List String) : Option (Int × SettingsState × Bool) :=
  match args with
  | name :: v1 :: rest =>
    match resolveSetting st name false with
    | .found c s =>
      match getSetting st c s with
      | none => none
      | some setting =>
        match setOptionsCheck setting v1 with
        | none => none
        | some false => some (-1, st, false)
        | some true =>
          match computeNewValue setting.type v1 rest with
          | .error _ => some (-1, st, false)
          | .ok newV =>
            if valueEq setting.value newV then some (0, st, false)
            else some (0, updateValue st c s newV, true)
    | _ => some (-1, st, false)
  | _ => some (-1, st, false)

/-- `Lets.add`: append to a list setting, merge `key:value` entries into a
dict setting; always saves on success. -/
def addOp (st : SettingsState) (args : List String) : Option (Int × SettingsState × Bool) :=
  match args with
  | name :: v1 :: rest =>
    match resolveSetting st name false with
    | .found c s =>
      match getSetting st c s with
      | none => none
      | some setting =>
        if setting.type == .list then
          match setting.value with
          | .list xs => some (0, updateValue st c s (.list (xs ++ (v1 :: rest))), true)
          | _ => none
        else if setting.type == .dict then
          let invalid := (v1 :: rest).filter (fun v => !containsChar v ':')
          if invalid.isEmpty then
            match setting.value with
            | .dict m =>
              let m2 := (v1 :: rest).foldl (fun acc v => dictInsert acc (splitKV v)) m
              some (0, updateValue st c s (.dict m2), true)
            | _ => none
          else some (-1, st, false)
        else some (-1, st, false)
    | _ => some (-1, st, false)
  | _ => some (-1, st, false)

/-- `list.remove(val)` guarded by `if val in setting["value"]` for every
requested value: remove the first occurrence of each present element. -/
def removeListValues (xs : List String) (vals : List String) : List String :=
  vals.foldl (fun acc v => if acc.contains v then acc.erase v else acc) xs

/-- `del dict[val]` guarded by `if val in setting["value"]` for every
requested key. -/
def removeDictKeys (m : List (String × String)) (vals : List String) : List (String × String) :=
  vals.foldl (fun acc v => if (acc.lookup v).isSome then acc.filter (fun p => p.1 != v) else acc) m

/-- `Lets.remove`: drop elements/keys when present, silently ignoring absent
ones; always saves on success. -/
def removeOp (st : SettingsState) (args : List String) : Option (Int × SettingsState × Bool) :=
  match args with
  | name :: v1 :: rest =>
    match resolveSetting st name false with
    | .found c s =>
      match getSetting st c s with
      | none => none
      | some setting =>
        if setting.type == .list then
          match setting.value with
          | .list xs => some (0, updateValue st c s (.list (removeListValues xs (v1 :: rest))), true)
          | _ => none
        else if setting.type == .dict then
          match setting.value with
          | .dict m => some (0, updateValue st c s (.dict (removeDictKeys m (v1 :: rest))), true)
          | _ => none
        else some (-1, st, false)
    | _ => some (-1, st, false)
  | _ => some (-1, st, false)

/-- The per-argument candidate search of `Lets.get`: an argument naming a
registered context yields all that context's settings, otherwise the same
inline match as the resolver, with no protected-name rejection and no
ambiguity tie-break. -/
def getMatches (st : SettingsState) (arg : String) : List (String × String) :=
  match st.lookup arg with
  | some ss => ss.map (fun q => (arg, q.1))
  | none =>
    let cn := splitQualified arg
    settingCandidates st cn.1 cn.2

/-- Insertion into the `results` dict of `Lets.get`, keyed `f"{c}.{s}"`. -/
def dictInsertV (m : List (String × SettingValue)) (k : String) (v : SettingValue) :
    List (String × SettingValue) :=
  if m.any (fun p => p.1 == k) then m.map (fun p => if p.1 == k then (k, v) else p)
  else m ++ [(k, v)]

/-- The body of the result loop of `Lets.get`: protected names are skipped
(`if not s.startswith("_")`), everything else lands in `results` under the
key `f"{c}.{s}"`. -/
def getInsert (st : SettingsState) (res : List (String × SettingValue)) (p : String × String) :
    List (String × SettingValue) :=
  if underscored p.2 then res
  else
    match getSettingValue st p.1 p.2 with
    | some v => dictInsertV res (p.1 ++ "." ++ p.2) v
    | none => res

/-- One iteration of the argument loop of `Lets.get`: unknown argument →
early `return -1` (`Except.error`); otherwise all non-protected matches are
added to `results`. -/
def getStep (st : SettingsState) (results : List (String × SettingValue)) (arg : String) :
    Except Unit (List (String × SettingValue)) :=
  match getMatches st arg with
  | [] => .error ()
  | p :: ps => .ok ((p :: ps).foldl (getInsert st) results)

/-- The default argument list of `Lets.get` when called with no arguments:
every registered setting as `f"{context}.{setting}"`, protected ones
included (they are filtered later, at result insertion). -/
def allSettingNames (st : SettingsState) : List String :=
  st.flatMap (fun p => p.2.map (fun q => p.1 ++ "." ++ q.1))

/-- `Lets.get`: returns the exit code and the `results` mapping that gets
printed.  `none` models the `ValueError` of `max()` over an empty `results`
(the registry never mutates and `get` never saves). -/
def getOp (st : SettingsState) (args : List String) : Option (Int × List (String × SettingValue)) :=
  let args2 := if args.isEmpty then allSettingNames st else args
  match args2.foldlM (getStep st) [] with
  | .error _ => some (-1, [])
  | .ok results => if results.isEmpty then none else some (0, results)

/-- `Lets._resolve_verbs`: all verbs whose name matches exactly under the
wildcard-or-equal context rule. -/
def resolveVerbs (vs : List Verb) (arg : String) : List Verb :=
  let cn := splitQualified arg
  vs.filter (fun c => c.verb == cn.2 && (cn.1 == "" || cn.1 == c.context))

/-- The `AVAILABLE SETTINGS` listing of no-argument `Lets.help`: every
non-protected setting as `(context.name, description)`. -/
def helpListedSettings (st : SettingsState) : List (String × String) :=
  st.flatMap (fun p =>
    p.2.filterMap (fun q =>
      if underscored q.1 then none else some (p.1 ++ "." ++ q.1, q.2.description)))

/-- The exit code of `Lets.help` on a non-empty argument list: per argument,
`-1` when the name resolves neither as a verb nor as a setting, or when verb
resolution is ambiguous; `0` once every argument printed its topic. -/
def helpArgsExit (vs : List Verb) (st : SettingsState) : List String → Int
  | [] => 0
  | arg :: rest =>
    let verbs := resolveVerbs vs arg
    let settingFound :=
      match resolveSetting st arg false with
      | .found c s => (getSetting st c s).isSome
      | _ => false
    if verbs.isEmpty && !settingFound then -1
    else if verbs.length > 1 then -1
    else helpArgsExit vs st rest

/-- Observable outcome of `Lets.process_arguments`: `helpNoArgs` is the
empty-argv help screen (exit `-1`); `exitCode` an early return; the help
redirect returns `0`; `invoke` hands `(invoked name, remaining args)` to the
resolved verb's handler; `crash` an unhandled `KeyError`/`IndexError`. -/
inductive DispatchResult where
  | helpNoArgs
  | exitCode (code : Int)
  | helpRedirect (qualified : String)
  | invoke (v : Verb) (invokedName : String) (handlerArgs : List String)
  | crash
deriving DecidableEq, Repr

/-- `while "verbose" in args: del args[args.index("verbose")]` — only the
bare token is stripped. -/
def stripVerbose (args : List String) : List String :=
  args.filter (fun a => a != "verbose")

/-- The tail of `Lets.process_arguments` after the verbose scan: redirect to
help when `"help"` occurs in `args[1:]`, otherwise invoke the handler with
`args[0]` and `args[1:]` of the (possibly stripped) argument list. -/
def finishDispatch (v : Verb) (st : SettingsState) (args : List String) :
    DispatchResult × SettingsState :=
  if args.tail.contains "help" then (.helpRedirect (v.context ++ "." ++ v.verb), st)
  else
    match args with
    | h :: t => (.invoke v h t, st)
    | [] => (.crash, st)

/-- `Lets.process_arguments`.  For a uniquely resolved verb outside the
`lets` context whose name is neither `get` nor `set`, a `verbose` or
`lets.verbose` token forces `lets.verbose` to `"on"` in memory (a `KeyError`
crash when that setting is unregistered) and deletes the bare `verbose`
occurrences from the argument list. -/
def process_arguments (vs : List Verb) (st : SettingsState) (args : List String) :
    DispatchResult × SettingsState :=
  match args with
  | [] => (.helpNoArgs, st)
  | a0 :: rest =>
    match resolveVerbs vs a0 with
    | [] => (.exitCode (-1), st)
    | [v] =>
      if v.context != "lets" && !(v.verb == "get" || v.verb == "set")
          && ((a0 :: rest).contains "verbose" || (a0 :: rest).contains "lets.verbose") then
        match getSetting st "lets" "verbose" with
        | none => (.crash, st)
        | some _ =>
          finishDispatch v (updateValue st "lets" "verbose" (.str "on"))
            (stripVerbose (a0 :: rest))
      else finishDispatch v st (a0 :: rest)
    | _ :: _ :: _ => (.exitCode (-1), st)

/-- `Lets.set_setting` (the programmatic accessor): resolves with
`allow_protected=True`, never rejecting protected names; Python returns
`None` on the success path (modelled `none`) and `-1` on resolution
failure. -/
def set_setting (st : SettingsState) (name : String) (v : SettingValue) :
    Option Int × SettingsState × Bool :=
  match resolveSetting st name true with
  | .found c s =>
    match getSetting st c s with
    | some setting =>
      if valueEq setting.value v then (none, st, false)
      else (none, updateValue st c s v, true)
    | none => (some (-1), st, false)
  | _ => (some (-1), st, false)

/-- `Lets.get_setting`: exact-key lookup, no fuzzy resolution, no protected
check. -/
def get_setting (st : SettingsState) (context setting : String) : Option SettingValue :=
  getSettingValue st context setting

/-- `Lets._load_settings` applied to an already-parsed `.letsrc` mapping:
unknown contexts are dropped (returned as the warned list), unknown setting
names inside known contexts abort fatally (`AttributeError`, modelled as
`Except.error` listing all offenders), and surviving entries overwrite the
registered values. -/
def load_settings (st : SettingsState) (file : List (String × List (String × SettingValue))) :
    Except (List String) (SettingsState × List String) :=
  let unknownCtxs := (file.filter (fun p => (st.lookup p.1).isNone)).map (fun p => p.1)
  let known := file.filter (fun p => (st.lookup p.1).isSome)
  let unknownSettings := known.flatMap (fun p =>
    p.2.filterMap (fun q =>
      match st.lookup p.1 with
      | some reg => if (reg.lookup q.1).isNone then some (p.1 ++ "." ++ q.1) else none
      | none => none))
  if unknownSettings.isEmpty then
    .ok (known.foldl (fun acc p => p.2.foldl (fun acc2 q => updateValue acc2 p.1 q.1 q.2) acc) st,
      unknownCtxs)
  else .error unknownSettings

/-- `Lets.register_setting`: fails (`ValueError`) when `(context, setting)`
already exists, else appends the new entry, deriving the kind from the
default value's shape. -/
def register_setting (st : SettingsState) (context name description : String)
    (options : Option (List String)) (default : SettingValue) : Except String SettingsState :=
  if (getSetting st context name).isSome then .error (context ++ "." ++ name)
  else
    let kind : SettingKind :=
      match default with
      | .str _ => .scalar
      | .list _ => .list
      | .dict _ => .dict
    let setting : Setting := ⟨description, options, default, kind⟩
    match st.lookup context with
    | some _ => .ok (st.map (fun p => if p.1 == context then (p.1, p.2 ++ [(name, setting)]) else p))
    | none => .ok (st ++ [(context, [(name, setting)])])

/-! ## Concrete registries used to instantiate the theorems -/

/-- A dict-kind setting with a declared option set, as in `lets.py`'s own
`register_setting("lets", "verbose", ..., ["on", "off"], "off")` pattern but
with a dict default. -/
def stC9 : SettingsState :=
  [("c", [("d", ⟨"dd", some ["v"], .dict [("k", "v")], .dict⟩)])]

/-- A registry holding only one protected setting. -/
def stC10 : SettingsState :=
  [("c", [("_p", ⟨"dp", none, .str "s", .scalar⟩)])]

/-- Two same-named scalar settings under different contexts. -/
def stC1 : SettingsState :=
  [("a", [("x", ⟨"dx", none, .str "1", .scalar⟩)]),
   ("b", [("x", ⟨"dx2", none, .str "2", .scalar⟩)])]

/-- A list setting whose value already contains the element about to be
added. -/
def stC2 : SettingsState :=
  [("c", [("l", ⟨"dl", none, .list ["a", "b"], .list⟩)])]

/-- A scalar setting (`q`), a list setting (`l`) and a dict setting (`d`)
under one context; `q`'s current value is `"t"`. -/
def stC3 : SettingsState :=
  [("c", [("q", ⟨"dq", none, .str "t", .scalar⟩),
          ("l", ⟨"dl", none, .list ["a"], .list⟩),
          ("d", ⟨"dd", none, .dict [("k", "v")], .dict⟩)])]

/-- The registry of the spec's own example: `lets.verbose` constrained to
`on`/`off`, currently `"on"` (state after a successful `set verbose on`). -/
def stC8 : SettingsState :=
  [("lets", [("verbose", ⟨"dv", some ["on", "off"], .str "on", .scalar⟩)])]

/-- The built-in verb registry plus the spec example's `build.run` and
`test.run`. -/
def vsC5 : List Verb :=
  [⟨"build", "run"⟩, ⟨"test", "run"⟩,
   ⟨"lets", "help"⟩, ⟨"lets", "get"⟩, ⟨"lets", "set"⟩, ⟨"lets", "add"⟩, ⟨"lets", "remove"⟩]

/-- A one-setting registry for the load-time claims. -/
def stC4 : SettingsState := [("a", [("x", ⟨"dx", none, .str "1", .scalar⟩)])]

/-- A store with an unknown context `zz` and an override for `a.x`. -/
def fileC4 : List (String × List (String × SettingValue)) :=
  [("zz", [("x", .str "9")]), ("a", [("x", .str "7")])]

/-- A store naming an unregistered setting inside the known context `a`. -/
def fileC4bad : List (String × List (String × SettingValue)) :=
  [("a", [("nope", .str "7")])]

/-- The registry after loading `fileC4`. -/
def stC4ok : SettingsState := [("a", [("x", ⟨"dx", none, .str "7", .scalar⟩)])]

/-- Registry with `lets.verbose` off, as built by the constructor. -/
def stC6 : SettingsState :=
  [("lets", [("verbose", ⟨"dv", some ["on", "off"], .str "off", .scalar⟩)])]

/-- A single extension verb. -/
def vsC6 : List Verb := [⟨"build", "run"⟩]

/-- A protected setting `c._p` next to a plain one `c.q`. -/
def stC7 : SettingsState :=
  [("c", [("_p", ⟨"dp", none, .str "s", .scalar⟩), ("q", ⟨"dq", none, .str "t", .scalar⟩)])]

/-- Provenance of one `results` entry of `get`: it stems from a registered,
non-protected setting, keyed by its qualified name. -/
def resultFromSetting (st : SettingsState) (q : String × SettingValue) : Prop :=
  ∃ c s, underscored s = false ∧ getSettingValue st c s = some q.2 ∧ q.1 = c ++ "." ++ s

/-! ## Shared lemmas about the registry primitives -/

theorem lookup_cons_unfold {β : Type} (k a : String) (b : β) (es : List (String × β)) :
    List.lookup a ((k, b) :: es) = if a == k then some b else List.lookup a es := by
  cases h : a == k <;> simp [List.lookup, h]

theorem lookup_map_updateEntry (ss : List (String × Setting)) (s' : String) (v : SettingValue)
    (s : String) :
    (ss.map (fun q => if q.1 == s' then (q.1, { q.2 with value := v }) else q)).lookup s
      = (ss.lookup s).map (fun q => if s == s' then { q with value := v } else q) := by
  induction ss with
  | nil => rfl
  | cons q ss ih =>
    obtain ⟨k, b⟩ := q
    by_cases h1 : k = s'
    · by_cases h2 : s = k
      · simp [List.map_cons, lookup_cons_unfold, h1, h2, ih]
      · have hss : ¬s = s' := by rw [← h1]; exact h2
        simp [List.map_cons, lookup_cons_unfold, h1, h2, hss]
        simpa [hss] using ih
    · by_cases h2 : s = k
      · have hss : ¬s = s' := by rw [h2]; exact h1
        simp [List.map_cons, lookup_cons_unfold, h1, h2, hss]
      · simp [List.map_cons, lookup_cons_unfold, h1, h2]
        simpa using ih

theorem lookup_map_updateCtx (st : SettingsState) (c' s' : String) (v : SettingValue)
    (c : String) :
    List.lookup c (updateValue st c' s' v)
      = (List.lookup c st).map (fun ss =>
          if c = c' then
            ss.map (fun q => if q.1 == s' then (q.1, { q.2 with value := v }) else q)
          else ss) := by
  induction st with
  | nil => rfl
  | cons p st ih =>
    obtain ⟨k, ss⟩ := p
    by_cases h1 : k = c'
    · by_cases h2 : c = k
      · simp [updateValue, List.map_cons, lookup_cons_unfold, h1, h2]
      · have hcc : ¬c = c' := by rw [← h1]; exact h2
        simp [updateValue, List.map_cons, lookup_cons_unfold, h1, h2, hcc]
        simpa [updateValue, hcc] using ih
    · by_cases h2 : c = k
      · have hcc : ¬c = c' := by rw [h2]; exact h1
        simp [updateValue, List.map_cons, lookup_cons_unfold, h1, h2, hcc]
      · simp [updateValue, List.map_cons, lookup_cons_unfold, h1, h2]
        simpa [updateValue] using ih

theorem getSetting_updateValue (st : SettingsState) (c' s' : String) (v : SettingValue)
    (c s : String) :
    getSetting (updateValue st c' s' v) c s
      = (getSetting st c s).map
          (fun q => if c == c' && s == s' then { q with value := v } else q) := by
  unfold getSetting
  rw [lookup_map_updateCtx]
  cases h : List.lookup c st with
  | none => simp
  | some ss =>
    by_cases hc : c = c'
    · subst hc
      simp only [Option.map_some', if_pos rfl, if_true]
      rw [lookup_map_updateEntry]
      cases List.lookup s ss <;> by_cases hs : s = s' <;> simp [hs]
    · simp only [Option.map_some', if_neg hc]
      cases List.lookup s ss <;> simp [hc]

theorem getSetting_updateValue_self (st : SettingsState) (c s : String) (v : SettingValue) :
    getSetting (updateValue st c s v) c s
      = (getSetting st c s).map (fun q => { q with value := v }) := by
  simp [getSetting_updateValue]

theorem getSetting_updateValue_other (st : SettingsState) (c' s' : String) (v : SettingValue)
    (c s : String) (h : ¬(c = c' ∧ s = s')) :
    getSetting (updateValue st c' s' v) c s = getSetting st c s := by
  rw [getSetting_updateValue]
  have hb : (c == c' && s == s') = false := by
    rcases Decidable.em (c = c') with hc | hc
    · rcases Decidable.em (s = s') with hs | hs
      · exact absurd ⟨hc, hs⟩ h
      · simp [hs]
    · simp [hc]
  cases getSetting st c s <;> simp [hb]

theorem settingCandidates_updateValue (st : SettingsState) (c' s' : String) (v : SettingValue)
    (context name : String) :
    settingCandidates (updateValue st c' s' v) context name
      = settingCandidates st context name := by
  induction st with
  | nil => rfl
  | cons p st ih =>
    simp only [settingCandidates, updateValue, List.map_cons, List.flatMap_cons] at *
    rw [ih]
    by_cases h1 : p.1 == c'
    · simp only [h1, if_pos rfl, if_true]
      congr 1
      induction p.2 with
      | nil => rfl
      | cons q ss ihq =>
        simp only [List.map_cons, List.filterMap_cons]
        rw [ihq]
        by_cases h2 : q.1 == s' <;> simp [h2]
    · simp [h1]

theorem resolveSetting_updateValue (st : SettingsState) (c' s' : String) (v : SettingValue)
    (arg : String) (b : Bool) :
    resolveSetting (updateValue st c' s' v) arg b = resolveSetting st arg b := by
  simp [resolveSetting, settingCandidates_updateValue]

theorem foldl_getInsert_protected (st : SettingsState) (pairs : List (String × String))
    (res : List (String × SettingValue))
    (h : ∀ p ∈ pairs, underscored p.2 = true) :
    pairs.foldl (getInsert st) res = res := by
  induction pairs generalizing res with
  | nil => rfl
  | cons p ps ih =>
    have hp : underscored p.2 = true := h p (List.mem_cons_self _ _)
    rw [List.foldl_cons]
    have hstep : getInsert st res p = res := by simp [getInsert, hp]
    rw [hstep]
    exact ih res (fun q hq => h q (List.mem_cons_of_mem _ hq))

theorem foldlM_getStep_protected (st : SettingsState) (args : List String)
    (hall : ∀ a ∈ args, getMatches st a ≠ [] ∧ ∀ p ∈ getMatches st a, underscored p.2 = true) :
    args.foldlM (getStep st) ([] : List (String × SettingValue)) = .ok [] := by
  induction args with
  | nil => rfl
  | cons a as ih =>
    obtain ⟨hne1, hprot⟩ := hall a (List.mem_cons_self _ _)
    have hstep : getStep st [] a = .ok [] := by
      cases hm : getMatches st a with
      | nil => exact absurd hm hne1
      | cons p ps =>
        have hfoldl := foldl_getInsert_protected st (p :: ps) [] (hm ▸ hprot)
        simp [getStep, hm, hfoldl]
    rw [List.foldlM_cons, hstep]
    exact ih (fun x hx => hall x (List.mem_cons_of_mem _ hx))

theorem filter_and_split {α : Type} (p q : α → Bool) (l : List α) :
    l.filter (fun a => p a && q a) = (l.filter p).filter q := by
  induction l with
  | nil => rfl
  | cons a l ih =>
    by_cases hp : p a <;> by_cases hq : q a <;> simp [List.filter_cons, hp, hq, ih]

/-- The per-context outline of a registry: context and setting names only. -/
def regShape (st : SettingsState) : List (String × List String) :=
  st.map (fun p => (p.1, p.2.map Prod.fst))

theorem regShape_updateValue (st : SettingsState) (c s : String) (v : SettingValue) :
    regShape (updateValue st c s v) = regShape st := by
  unfold regShape updateValue
  rw [List.map_map]
  apply List.map_congr_left
  intro p _
  by_cases h : p.1 = c
  · simp only [Function.comp, h, if_pos rfl, if_true, beq_self_eq_true, List.map_map]
    refine congrArg _ ?_
    apply List.map_congr_left
    intro q _
    by_cases h2 : q.1 = s <;> simp [h2]
  · simp [Function.comp, h]

theorem regShape_foldInner (qs : List (String × SettingValue)) (acc : SettingsState)
    (c : String) :
    regShape (qs.foldl (fun a2 q => updateValue a2 c q.1 q.2) acc) = regShape acc := by
  induction qs generalizing acc with
  | nil => rfl
  | cons q qs ih => rw [List.foldl_cons, ih, regShape_updateValue]

theorem regShape_foldCtx (ps : List (String × List (String × SettingValue)))
    (acc : SettingsState) :
    regShape (ps.foldl (fun a p => p.2.foldl (fun a2 q => updateValue a2 p.1 q.1 q.2) a) acc)
      = regShape acc := by
  induction ps generalizing acc with
  | nil => rfl
  | cons p ps ih => rw [List.foldl_cons, ih, regShape_foldInner]

theorem isSome_getSetting_updateValue (st : SettingsState) (c' s' : String) (v : SettingValue)
    (c s : String) :
    (getSetting (updateValue st c' s' v) c s).isSome = (getSetting st c s).isSome := by
  rw [getSetting_updateValue]
  cases getSetting st c s <;> rfl

theorem isSome_getSetting_foldInner (qs : List (String × SettingValue)) (acc : SettingsState)
    (c' c s : String) :
    (getSetting (qs.foldl (fun a2 q => updateValue a2 c' q.1 q.2) acc) c s).isSome
      = (getSetting acc c s).isSome := by
  induction qs generalizing acc with
  | nil => rfl
  | cons q qs ih => rw [List.foldl_cons, ih, isSome_getSetting_updateValue]

theorem isSome_getSetting_foldCtx (ps : List (String × List (String × SettingValue)))
    (acc : SettingsState) (c s : String) :
    (getSetting (ps.foldl (fun a p => p.2.foldl (fun a2 q => updateValue a2 p.1 q.1 q.2) a) acc)
        c s).isSome
      = (getSetting acc c s).isSome := by
  induction ps generalizing acc with
  | nil => rfl
  | cons p ps ih => rw [List.foldl_cons, ih, isSome_getSetting_foldInner]

theorem getSettingValue_updateValue_other (st : SettingsState) (c' s' : String)
    (v : SettingValue) (c s : String) (h : ¬(c = c' ∧ s = s')) :
    getSettingValue (updateValue st c' s' v) c s = getSettingValue st c s := by
  unfold getSettingValue
  rw [getSetting_updateValue_other st c' s' v c s h]

theorem getSettingValue_foldInner_other (qs : List (String × SettingValue)) (acc : SettingsState)
    (c' c s : String) (h : ∀ q ∈ qs, ¬(c = c' ∧ s = q.1)) :
    getSettingValue (qs.foldl (fun a2 q => updateValue a2 c' q.1 q.2) acc) c s
      = getSettingValue acc c s := by
  induction qs generalizing acc with
  | nil => rfl
  | cons q qs ih =>
    rw [List.foldl_cons, ih _ (fun x hx => h x (List.mem_cons_of_mem _ hx)),
      getSettingValue_updateValue_other _ _ _ _ _ _ (h q (List.mem_cons_self _ _))]

theorem getSettingValue_foldCtx_other (ps : List (String × List (String × SettingValue)))
    (acc : SettingsState) (c s : String) (h : ∀ p ∈ ps, ¬c = p.1) :
    getSettingValue
        (ps.foldl (fun a p => p.2.foldl (fun a2 q => updateValue a2 p.1 q.1 q.2) a) acc) c s
      = getSettingValue acc c s := by
  induction ps generalizing acc with
  | nil => rfl
  | cons p ps ih =>
    rw [List.foldl_cons, ih _ (fun x hx => h x (List.mem_cons_of_mem _ hx)),
      getSettingValue_foldInner_other _ _ _ _ _
        (fun q _ => fun hcs => h p (List.mem_cons_self _ _) hcs.1)]

theorem getSettingValue_updateValue_self (st : SettingsState) (c s : String) (v : SettingValue)
    (h : (getSetting st c s).isSome = true) :
    getSettingValue (updateValue st c s v) c s = some v := by
  unfold getSettingValue
  rw [getSetting_updateValue_self]
  cases hg : getSetting st c s with
  | none => rw [hg] at h; exact absurd h (by simp)
  | some q => simp

/-! ## Claims -/

/-- C9: for every dict-kind setting with a declared option set, `set`
performs the options membership check before the malformed-entry check, and
that check indexes `args[1].split(":", 1)[1]` without guarding; when the
first value argument contains no `:` the operation crashes (IndexError,
modelled `none`) instead of failing gracefully with the malformed-entry
error. -/
theorem c9_set_dict_options_crash (st : SettingsState) (name v1 : String) (rest : List String)
    (c s : String) (setting : Setting) (opts : List String)
    (hres : resolveSetting st name false = .found c s)
    (hget : getSetting st c s = some setting)
    (hopts : setting.options = some opts)
    (hty : setting.type = SettingKind.dict)
    (hcolon : afterColon v1 = none) :
    setOp st (name :: v1 :: rest) = none := by
  simp [setOp, hres, hget, setOptionsCheck, hopts, hty, hcolon]

/-- Witness for C9: `set d novalue` on the concrete dict setting crashes. -/
theorem c9_witness : setOp stC9 ["d", "novalue"] = none :=
  c9_set_dict_options_crash stC9 "d" "novalue" [] "c" "d"
    ⟨"dd", some ["v"], .dict [("k", "v")], .dict⟩ ["v"] rfl rfl rfl rfl rfl

/-- C10: when every `get` argument resolves only to protected settings, the
matches are filtered out of `results` after the emptiness check, and the
`max()` over the empty `results` raises `ValueError` (modelled `none`). -/
theorem c10_get_protected_crash (st : SettingsState) (args : List String)
    (hne : args ≠ [])
    (hall : ∀ a ∈ args, getMatches st a ≠ [] ∧ ∀ p ∈ getMatches st a, underscored p.2 = true) :
    getOp st args = none := by
  have hfold := foldlM_getStep_protected st args hall
  cases args with
  | nil => exact absurd rfl hne
  | cons a as =>
    simp only [getOp, List.isEmpty_cons, if_false, Bool.false_eq_true]
    rw [hfold]
    rfl

/-- Witness for C10: `get _p` on a registry holding a resolving protected
setting crashes. -/
theorem c10_witness : getOp stC10 ["_p"] = none :=
  c10_get_protected_crash stC10 ["_p"] (by simp) (by decide)

/-- C8: every recoverable validation failure of `set`, `add` and `remove`
(exit code `-1`) leaves the registry unchanged and performs no persistence
write; in particular `set verbose maybe` after `set verbose on` fails and
the value remains `"on"`. -/
theorem c8_error_no_mutation :
    ∀ (st : SettingsState) (args : List String) (st2 : SettingsState) (saved : Bool),
      (setOp st args = some (-1, st2, saved) → st2 = st ∧ saved = false) ∧
      (addOp st args = some (-1, st2, saved) → st2 = st ∧ saved = false) ∧
      (removeOp st args = some (-1, st2, saved) → st2 = st ∧ saved = false) := by
  intro st args st2 saved
  refine ⟨?_, ?_, ?_⟩ <;> intro h
  · unfold setOp at h
    repeat' split at h
    all_goals simp_all
  · unfold addOp at h
    repeat' split at h
    all_goals (try (dsimp only at h; repeat' split at h))
    all_goals simp_all
  · unfold removeOp at h
    repeat' split at h
    all_goals simp_all

/-- Witness for C8: with `lets.verbose` set to `"on"`, `set verbose maybe`
fails with `-1` and the registry (hence the value `"on"`) is untouched, with
no save. -/
theorem c8_witness :
    getSettingValue stC8 "lets" "verbose" = some (.str "on") ∧ stC8 = stC8 ∧ false = false :=
  ⟨rfl, (c8_error_no_mutation stC8 ["verbose", "maybe"] stC8 false).1 rfl⟩

/-- C3: a successful `set` saves if and only if the new value differs from
the stored one under Python value equality, whereas every successful `add`
and every successful `remove` always saves, even when the resulting value
equals the prior one. -/
theorem c3_save_asymmetry :
    (∀ (st : SettingsState) (name v1 : String) (rest : List String) (c s : String)
        (setting : Setting) (newV : SettingValue) (st2 : SettingsState) (saved : Bool),
        resolveSetting st name false = .found c s →
        getSetting st c s = some setting →
        computeNewValue setting.type v1 rest = .ok newV →
        setOp st (name :: v1 :: rest) = some (0, st2, saved) →
        (saved = true ↔ valueEq setting.value newV = false)) ∧
    (∀ (st : SettingsState) (args : List String) (st2 : SettingsState) (saved : Bool),
        addOp st args = some (0, st2, saved) → saved = true) ∧
    (∀ (st : SettingsState) (args : List String) (st2 : SettingsState) (saved : Bool),
        removeOp st args = some (0, st2, saved) → saved = true) := by
  refine ⟨?_, ?_, ?_⟩
  · intro st name v1 rest c s setting newV st2 saved hres hget hnew hrun
    simp only [setOp, hres, hget, hnew] at hrun
    cases hoc : setOptionsCheck setting v1 with
    | none => rw [hoc] at hrun; exact absurd hrun (by simp)
    | some b =>
      rw [hoc] at hrun
      cases b with
      | false => exact absurd hrun (by simp)
      | true =>
        by_cases hv : valueEq setting.value newV <;> simp [hv] at hrun <;> simp [hv, hrun]
  · intro st args st2 saved h
    unfold addOp at h
    repeat' split at h
    all_goals (try (dsimp only at h; repeat' split at h))
    all_goals simp_all
  · intro st args st2 saved h
    unfold removeOp at h
    repeat' split at h
    all_goals simp_all

/-- Witness for C3: setting `q` to its current value `"t"` does not save
(`saved = false` and the values are equal); adding an already-present dict
entry saves; removing an absent list element saves. -/
theorem c3_witness :
    (false = true ↔ valueEq (SettingValue.str "t") (SettingValue.str "t") = false) ∧
    true = true ∧ true = true := by
  refine ⟨?_, ?_, ?_⟩
  · exact c3_save_asymmetry.1 stC3 "q" "t" [] "c" "q"
      ⟨"dq", none, .str "t", .scalar⟩ (.str "t") stC3 false rfl rfl rfl rfl
  · exact c3_save_asymmetry.2.1 stC3 ["d", "k:v"]
      (updateValue stC3 "c" "d" (.dict [("k", "v")])) true rfl
  · exact c3_save_asymmetry.2.2 stC3 ["l", "zz"]
      (updateValue stC3 "c" "l" (.list ["a"])) true rfl

/-- C5: with exactly `("build","run")` and `("test","run")` registered among
verbs named `run` (in either order), dispatching bare `run` is ambiguous and
exits `-1` without invoking any handler, while `build.run` invokes the build
context's handler; in general an unqualified verb resolving to more than one
entry always exits `-1`, regardless of registration order. -/
theorem c5_run_dispatch (vs : List Verb) (st : SettingsState)
    (hrun : vs.filter (fun v => v.verb == "run") = [⟨"build", "run"⟩, ⟨"test", "run"⟩] ∨
            vs.filter (fun v => v.verb == "run") = [⟨"test", "run"⟩, ⟨"build", "run"⟩]) :
    process_arguments vs st ["run"] = (.exitCode (-1), st) ∧
    process_arguments vs st ["build.run"] = (.invoke ⟨"build", "run"⟩ "build.run" [], st) ∧
    ∀ (a0 : String) (rest : List String) (v1 v2 : Verb) (more : List Verb),
      resolveVerbs vs a0 = v1 :: v2 :: more →
      process_arguments vs st (a0 :: rest) = (.exitCode (-1), st) := by
  have hbare : resolveVerbs vs "run" = vs.filter (fun v => v.verb == "run") := by
    have hcn : splitQualified "run" = ("", "run") := rfl
    simp [resolveVerbs, hcn]
  have hqual : resolveVerbs vs "build.run"
      = (vs.filter (fun v => v.verb == "run")).filter (fun v => "build" == v.context) := by
    have hcn : splitQualified "build.run" = ("build", "run") := rfl
    have hne : ("build" == "") = false := rfl
    rw [resolveVerbs]
    rw [hcn]
    simp only [hne, Bool.false_or]
    exact filter_and_split _ _ vs
  refine ⟨?_, ?_, ?_⟩
  · rcases hrun with h | h <;>
      · rw [process_arguments, hbare, h]
  · have hres : resolveVerbs vs "build.run" = [⟨"build", "run"⟩] := by
      rcases hrun with h | h <;> rw [hqual, h] <;> rfl
    rw [process_arguments, hres]
    rfl
  · intro a0 rest v1 v2 more hr
    rw [process_arguments, hr]

/-- Witness for C5: the concrete registry of the spec's example. -/
theorem c5_witness :
    process_arguments vsC5 [] ["run"] = (.exitCode (-1), ([] : SettingsState)) ∧
    process_arguments vsC5 [] ["build.run"]
      = (.invoke ⟨"build", "run"⟩ "build.run" [], ([] : SettingsState)) :=
  ⟨(c5_run_dispatch vsC5 [] (Or.inl rfl)).1, (c5_run_dispatch vsC5 [] (Or.inl rfl)).2.1⟩

/-- C4: loading the persisted store drops the entries of every unregistered
context after a non-fatal warning (the registered outline is unchanged and
the context is reported), fails fatally on a setting name unregistered
inside a registered context (reporting all such `context.setting` names
together), and overwrites the registered value of every registered
`(context, name)` present in the store. -/
theorem c4_load_asymmetry :
    (∀ (st : SettingsState) (file : List (String × List (String × SettingValue)))
        (st2 : SettingsState) (warns : List String),
        load_settings st file = .ok (st2, warns) →
        regShape st2 = regShape st ∧
        ∀ c, c ∈ file.map Prod.fst → (List.lookup c st).isNone → c ∈ warns) ∧
    (∀ (st : SettingsState) (file : List (String × List (String × SettingValue)))
        (c s : String) (ss : List (String × SettingValue)) (v : SettingValue)
        (reg : List (String × Setting)),
        (c, ss) ∈ file → (s, v) ∈ ss →
        List.lookup c st = some reg → List.lookup s reg = none →
        ∃ es, load_settings st file = .error es ∧ (c ++ "." ++ s) ∈ es) ∧
    (∀ (st : SettingsState) (l1 l2 : List (String × List (String × SettingValue)))
        (q1 q2 : List (String × SettingValue)) (c s : String) (v : SettingValue)
        (st2 : SettingsState) (warns : List String) (setting : Setting),
        getSetting st c s = some setting →
        (∀ p ∈ l1, p.1 ≠ c) → (∀ p ∈ l2, p.1 ≠ c) →
        (∀ q ∈ q1, q.1 ≠ s) → (∀ q ∈ q2, q.1 ≠ s) →
        load_settings st (l1 ++ (c, q1 ++ (s, v) :: q2) :: l2) = .ok (st2, warns) →
        getSettingValue st2 c s = some v) := by
  refine ⟨?_, ?_, ?_⟩
  · intro st file st2 warns h
    simp only [load_settings] at h
    split at h
    · simp only [Except.ok.injEq, Prod.mk.injEq] at h
      obtain ⟨hst, hw⟩ := h
      constructor
      · rw [← hst, regShape_foldCtx]
      · intro c hc hnone
        rw [← hw]
        rcases List.mem_map.mp hc with ⟨p, hp, hpc⟩
        exact List.mem_map.mpr ⟨p, List.mem_filter.mpr ⟨hp, by rw [hpc]; simpa using hnone⟩, hpc⟩
    · exact absurd h (by simp)
  · intro st file c s ss v reg hcs hsv hlook hnone
    have hmem : (c ++ "." ++ s)
        ∈ (file.filter (fun p => (List.lookup p.1 st).isSome)).flatMap (fun p =>
            p.2.filterMap (fun q =>
              match List.lookup p.1 st with
              | some reg => if (List.lookup q.1 reg).isNone then some (p.1 ++ "." ++ q.1) else none
              | none => none)) := by
      refine List.mem_flatMap.mpr ⟨(c, ss), List.mem_filter.mpr ⟨hcs, by simp [hlook]⟩, ?_⟩
      exact List.mem_filterMap.mpr ⟨(s, v), hsv, by simp [hlook, hnone]⟩
    refine ⟨_, ?_, hmem⟩
    simp only [load_settings]
    rw [if_neg]
    exact fun hemp => List.ne_nil_of_mem hmem (by simpa using hemp)
  · intro st l1 l2 q1 q2 c s v st2 warns setting hreg hl1 hl2 hq1 hq2 h
    have hcssome : (List.lookup c st).isSome = true := by
      unfold getSetting at hreg
      cases hl : List.lookup c st with
      | none => rw [hl] at hreg; exact absurd hreg (by simp)
      | some _ => rfl
    have hsome : (getSetting st c s).isSome = true := by rw [hreg]; rfl
    simp only [load_settings] at h
    split at h
    · simp only [Except.ok.injEq, Prod.mk.injEq] at h
      obtain ⟨hst, _⟩ := h
      rw [← hst]
      rw [List.filter_append, List.filter_cons, if_pos (by simpa using hcssome)]
      rw [List.foldl_append, List.foldl_cons]
      rw [getSettingValue_foldCtx_other _ _ _ _
        (fun p hp => hl2 p (List.mem_of_mem_filter hp) ∘ Eq.symm)]
      rw [List.foldl_append, List.foldl_cons]
      rw [getSettingValue_foldInner_other _ _ _ _ _
        (fun q hq hand => hq2 q hq hand.2.symm)]
      rw [getSettingValue_updateValue_self]
      rw [isSome_getSetting_foldInner, isSome_getSetting_foldCtx]
      exact hsome
    · exact absurd h (by simp)

/-- Witness for C4: loading `fileC4` into `stC4` warns about the unknown
context `zz` and overwrites `a.x` with `"7"`; loading `fileC4bad` fails
listing `a.nope`. -/
theorem c4_witness :
    ("zz" ∈ (["zz"] : List String)) ∧
    (∃ es, load_settings stC4 fileC4bad = .error es ∧ ("a" ++ "." ++ "nope") ∈ es) ∧
    getSettingValue stC4ok "a" "x" = some (.str "7") := by
  refine ⟨?_, ?_, ?_⟩
  · exact ((c4_load_asymmetry.1 stC4 fileC4 stC4ok ["zz"] rfl).2 "zz" (by decide) rfl)
  · exact c4_load_asymmetry.2.1 stC4 fileC4bad "a" "nope" [("nope", .str "7")] (.str "7")
      [("x", ⟨"dx", none, .str "1", .scalar⟩)]
      (List.mem_cons_self _ _) (List.mem_cons_self _ _) rfl rfl
  · exact c4_load_asymmetry.2.2 stC4 [("zz", [("x", .str "9")])] [] [] [] "a" "x" (.str "7")
      stC4ok ["zz"] ⟨"dx", none, .str "1", .scalar⟩ rfl (by decide) (by decide) (by decide)
      (by decide) rfl

theorem key_mem_dictInsertV (res : List (String × SettingValue)) (k : String) (v : SettingValue)
    (k' : String) (h : ∃ w, (k', w) ∈ res) : ∃ w, (k', w) ∈ dictInsertV res k v := by
  obtain ⟨w, hw⟩ := h
  unfold dictInsertV
  split
  · by_cases hk : k' = k
    · subst hk
      exact ⟨v, List.mem_map.mpr ⟨(k', w), hw, by simp⟩⟩
    · exact ⟨w, List.mem_map.mpr ⟨(k', w), hw, by simp [hk]⟩⟩
  · exact ⟨w, List.mem_append_left _ hw⟩

theorem key_mem_dictInsertV_self (res : List (String × SettingValue)) (k : String)
    (v : SettingValue) : ∃ w, (k, w) ∈ dictInsertV res k v := by
  by_cases hany : (res.any (fun p => p.1 == k)) = true
  · unfold dictInsertV
    rw [if_pos hany]
    obtain ⟨p, hp, hpk⟩ := List.any_eq_true.mp hany
    exact ⟨v, List.mem_map.mpr ⟨p, hp, by simp [hpk]⟩⟩
  · unfold dictInsertV
    rw [if_neg hany]
    exact ⟨v, List.mem_append_right _ (List.mem_cons_self _ _)⟩

theorem key_mem_getInsert (st : SettingsState) (res : List (String × SettingValue))
    (p : String × String) (k' : String) (h : ∃ w, (k', w) ∈ res) :
    ∃ w, (k', w) ∈ getInsert st res p := by
  unfold getInsert
  split
  · exact h
  · cases hg : getSettingValue st p.1 p.2 with
    | none => simpa [hg] using h
    | some v =>
      simp only [hg]
      exact key_mem_dictInsertV _ _ _ _ h

theorem key_mem_foldl_getInsert (st : SettingsState) (pairs : List (String × String))
    (res : List (String × SettingValue)) (k' : String) (h : ∃ w, (k', w) ∈ res) :
    ∃ w, (k', w) ∈ pairs.foldl (getInsert st) res := by
  induction pairs generalizing res with
  | nil => exact h
  | cons p ps ih => exact ih _ (key_mem_getInsert _ _ _ _ h)

theorem key_mem_getInsert_self (st : SettingsState) (res : List (String × SettingValue))
    (p : String × String) (hprot : underscored p.2 = false) (v : SettingValue)
    (hv : getSettingValue st p.1 p.2 = some v) :
    ∃ w, (p.1 ++ "." ++ p.2, w) ∈ getInsert st res p := by
  unfold getInsert
  rw [if_neg (by simp [hprot]), hv]
  exact key_mem_dictInsertV_self _ _ _

theorem foldl_getInsert_covers (st : SettingsState) (pairs : List (String × String)) :
    ∀ (res : List (String × SettingValue)) (p : String × String), p ∈ pairs →
      underscored p.2 = false → ∀ v, getSettingValue st p.1 p.2 = some v →
      ∃ w, (p.1 ++ "." ++ p.2, w) ∈ pairs.foldl (getInsert st) res := by
  induction pairs with
  | nil =>
    intro res p hp
    cases hp
  | cons q ps ih =>
    intro res p hp hprot v hv
    rw [List.foldl_cons]
    rcases List.mem_cons.mp hp with rfl | hmem
    · exact key_mem_foldl_getInsert _ _ _ _ (key_mem_getInsert_self _ _ _ hprot v hv)
    · exact ih _ p hmem hprot v hv

/-- C1 counterexample: with `a.x` and `b.x` registered, `set x v` aborts
with `-1` via the shared resolver's ambiguity tie-break, but `get x` does
not: it prints both candidates' values and returns `0`, so `get`
special-cases resolution, contrary to the claim. -/
theorem c1_counterexample :
    getOp stC1 ["x"] = some (0, [("a.x", .str "1"), ("b.x", .str "2")]) ∧
    setOp stC1 ["x", "v"] = some (-1, stC1, false) ∧
    (0 : Int) ≠ -1 :=
  ⟨rfl, rfl, by decide⟩

/-- C1 amended: the zero/one/many tie-break governs `set`, `add`, `remove`
uniformly (ambiguous resolution aborts with `-1` and no mutation), and
`help` aborts with `-1` when the ambiguous name also resolves to no verb;
`get` alone special-cases resolution: an unqualified name matching several
contexts makes `get` return `0` and list every matching `context.name`
candidate in its results instead of aborting. -/
theorem c1_get_special_cased :
    (∀ (st : SettingsState) (arg v1 : String) (rest : List String)
        (cands : List (String × String)),
        resolveSetting st arg false = .ambiguous cands →
        setOp st (arg :: v1 :: rest) = some (-1, st, false) ∧
        addOp st (arg :: v1 :: rest) = some (-1, st, false) ∧
        removeOp st (arg :: v1 :: rest) = some (-1, st, false)) ∧
    (∀ (vs : List Verb) (st : SettingsState) (arg : String) (rest : List String)
        (cands : List (String × String)),
        resolveSetting st arg false = .ambiguous cands →
        resolveVerbs vs arg = [] →
        helpArgsExit vs st (arg :: rest) = -1) ∧
    (∀ (st : SettingsState) (arg : String) (cands : List (String × String)),
        List.lookup arg st = none →
        getMatches st arg = cands →
        2 ≤ cands.length →
        (∀ p ∈ cands, underscored p.2 = false) →
        (∀ p ∈ cands, ∃ v, getSettingValue st p.1 p.2 = some v) →
        ∃ res, getOp st [arg] = some (0, res) ∧
          ∀ p ∈ cands, ∃ w, (p.1 ++ "." ++ p.2, w) ∈ res) := by
  refine ⟨?_, ?_, ?_⟩
  · intro st arg v1 rest cands h
    refine ⟨?_, ?_, ?_⟩ <;> simp [setOp, addOp, removeOp, h]
  · intro vs st arg rest cands hres hverbs
    simp [helpArgsExit, hres, hverbs]
  · intro st arg cands hlk hm hlen hprot hval
    cases cands with
    | nil => simp at hlen
    | cons p ps =>
      have hstep : getStep st [] arg = .ok ((p :: ps).foldl (getInsert st) []) := by
        simp only [getStep, hm]
      have hfold : List.foldlM (getStep st) ([] : List (String × SettingValue)) [arg]
          = .ok ((p :: ps).foldl (getInsert st) []) := by
        rw [List.foldlM_cons, hstep]
        rfl
      obtain ⟨v0, hv0⟩ := hval p (List.mem_cons_self _ _)
      obtain ⟨w0, hw0⟩ := foldl_getInsert_covers st (p :: ps) [] p (List.mem_cons_self _ _)
        (hprot p (List.mem_cons_self _ _)) v0 hv0
      refine ⟨(p :: ps).foldl (getInsert st) [], ?_, ?_⟩
      · simp only [getOp, List.isEmpty_cons, if_false, Bool.false_eq_true]
        rw [hfold]
        dsimp only
        rw [if_neg]
        intro hemp
        rw [List.isEmpty_eq_true.mp hemp] at hw0
        cases hw0
      · intro q hq
        obtain ⟨vq, hvq⟩ := hval q hq
        exact foldl_getInsert_covers st (p :: ps) [] q hq (hprot q hq) vq hvq

/-- Witness for C1's amended statement at the two-candidate registry. -/
theorem c1_witness :
    (setOp stC1 ["x", "v"] = some (-1, stC1, false) ∧
     addOp stC1 ["x", "v"] = some (-1, stC1, false) ∧
     removeOp stC1 ["x", "v"] = some (-1, stC1, false)) ∧
    helpArgsExit [] stC1 ["x"] = -1 ∧
    (∃ res, getOp stC1 ["x"] = some (0, res) ∧
      ∀ p ∈ [("a", "x"), ("b", "x")], ∃ w, (p.1 ++ "." ++ p.2, w) ∈ res) := by
  refine ⟨?_, ?_, ?_⟩
  · exact c1_get_special_cased.1 stC1 "x" "v" [] [("a", "x"), ("b", "x")] rfl
  · exact c1_get_special_cased.2.1 [] stC1 "x" [] [("a", "x"), ("b", "x")] rfl rfl
  · refine c1_get_special_cased.2.2 stC1 "x" [("a", "x"), ("b", "x")] rfl rfl (by decide)
      (by decide) ?_
    intro p hp
    rcases List.mem_cons.mp hp with rfl | hp2
    · exact ⟨.str "1", rfl⟩
    · rcases List.mem_cons.mp hp2 with rfl | hp3
      · exact ⟨.str "2", rfl⟩
      · cases hp3

theorem lookup_eq_none_iff {β : Type} (l : List (String × β)) (k : String) :
    List.lookup k l = none ↔ ∀ p ∈ l, ¬(p.1 = k) := by
  induction l with
  | nil => simp
  | cons p l ih =>
    obtain ⟨a, b⟩ := p
    rw [lookup_cons_unfold]
    by_cases h : k = a
    · simp [h]
    · simp only [List.mem_cons]
      rw [if_neg (by simpa using h)]
      rw [ih]
      constructor
      · intro hall q hq
        rcases hq with rfl | hq
        · simpa using fun he => h he.symm
        · exact hall q hq
      · intro hall q hq
        exact hall q (Or.inr hq)

theorem removeListValues_eq (vals : List String) :
    ∀ xs : List String,
      removeListValues xs vals = vals.foldl (fun acc v => acc.erase v) xs := by
  induction vals with
  | nil => intro xs; rfl
  | cons v vs ih =>
    intro xs
    unfold removeListValues
    rw [List.foldl_cons, List.foldl_cons]
    by_cases h : xs.contains v = true
    · rw [if_pos h]
      exact ih _
    · rw [if_neg h]
      rw [List.erase_of_not_mem (by simpa using h)]
      exact ih _

theorem foldl_erase_append (ys : List String) :
    ∀ xs : List String, (∀ y ∈ ys, y ∉ xs) →
      ys.foldl (fun acc v => acc.erase v) (xs ++ ys) = xs := by
  induction ys with
  | nil => intro xs _; simp
  | cons y ys ih =>
    intro xs h
    rw [List.foldl_cons]
    have h1 : (xs ++ y :: ys).erase y = xs ++ ys := by
      rw [List.erase_append_right _ (h y (List.mem_cons_self _ _))]
      rw [List.erase_cons_head]
    rw [h1]
    exact ih xs (fun z hz => h z (List.mem_cons_of_mem _ hz))

theorem foldl_dictInsert_extends (es : List (String × String)) (K : List String) :
    ∀ (m extra : List (String × String)),
      (∀ kv ∈ es, List.lookup kv.1 m = none) →
      (∀ kv ∈ es, kv.1 ∈ K) →
      (∀ p ∈ extra, p.1 ∈ K) →
      ∃ extra2, es.foldl dictInsert (m ++ extra) = m ++ extra2 ∧ ∀ p ∈ extra2, p.1 ∈ K := by
  induction es with
  | nil =>
    intro m extra _ _ hextra
    exact ⟨extra, rfl, hextra⟩
  | cons kv es ih =>
    intro m extra hfresh hkeys hextra
    rw [List.foldl_cons]
    have hnone : List.lookup kv.1 m = none := hfresh kv (List.mem_cons_self _ _)
    have hmkeys : ∀ p ∈ m, ¬(p.1 = kv.1) := (lookup_eq_none_iff m kv.1).mp hnone
    have hstep : ∃ extra1, dictInsert (m ++ extra) kv = m ++ extra1 ∧ ∀ p ∈ extra1, p.1 ∈ K := by
      unfold dictInsert
      split
      · refine ⟨extra.map (fun p => if p.1 == kv.1 then kv else p), ?_, ?_⟩
        · rw [List.map_append]
          congr 1
          have hmap : m.map (fun p => if p.1 == kv.1 then kv else p) = m.map (fun p => p) :=
            List.map_congr_left (fun p hp => by rw [if_neg (by simpa using hmkeys p hp)])
          rw [hmap, List.map_id']
        · intro p hp
          rcases List.mem_map.mp hp with ⟨q, hq, hqe⟩
          by_cases hqk : q.1 == kv.1
          · rw [if_pos hqk] at hqe
            rw [← hqe]
            exact hkeys kv (List.mem_cons_self _ _)
          · rw [if_neg hqk] at hqe
            rw [← hqe]
            exact hextra q hq
      · refine ⟨extra ++ [kv], by rw [List.append_assoc], ?_⟩
        intro p hp
        rcases List.mem_append.mp hp with hp1 | hp2
        · exact hextra p hp1
        · rw [List.mem_singleton.mp hp2]
          exact hkeys kv (List.mem_cons_self _ _)
    obtain ⟨extra1, he1, hk1⟩ := hstep
    rw [he1]
    exact ih m extra1 (fun q hq => hfresh q (List.mem_cons_of_mem _ hq))
      (fun q hq => hkeys q (List.mem_cons_of_mem _ hq)) hk1

theorem removeDictKeys_eq (ks : List String) :
    ∀ m : List (String × String),
      removeDictKeys m ks = ks.foldl (fun acc k => acc.filter (fun p => p.1 != k)) m := by
  induction ks with
  | nil => intro m; rfl
  | cons k ks ih =>
    intro m
    unfold removeDictKeys
    rw [List.foldl_cons, List.foldl_cons]
    by_cases h : (List.lookup k m).isSome = true
    · rw [if_pos h]
      exact ih _
    · rw [if_neg h]
      have hfilter : m.filter (fun p => p.1 != k) = m := by
        apply List.filter_eq_self.mpr
        intro p hp
        have hne := (lookup_eq_none_iff m k).mp (Option.not_isSome_iff_eq_none.mp h) p hp
        exact bne_iff_ne.mpr hne
      rw [hfilter]
      exact ih _

theorem foldl_filter_keys (ks : List String) :
    ∀ m : List (String × String),
      ks.foldl (fun acc k => acc.filter (fun p => p.1 != k)) m
        = m.filter (fun p => ks.all (fun k => p.1 != k)) := by
  induction ks with
  | nil => intro m; simp
  | cons k ks ih =>
    intro m
    rw [List.foldl_cons, ih, ← filter_and_split]
    simp only [List.all_cons]

theorem removeDictKeys_restore (m extra : List (String × String)) (ks : List String)
    (hm : ∀ p ∈ m, p.1 ∉ ks) (hextra : ∀ p ∈ extra, p.1 ∈ ks) :
    removeDictKeys (m ++ extra) ks = m := by
  rw [removeDictKeys_eq, foldl_filter_keys, List.filter_append]
  have h1 : m.filter (fun p => ks.all (fun k => p.1 != k)) = m := by
    apply List.filter_eq_self.mpr
    intro p hp
    apply List.all_eq_true.mpr
    intro k hk
    exact bne_iff_ne.mpr (fun he => hm p hp (he ▸ hk))
  have h2 : extra.filter (fun p => ks.all (fun k => p.1 != k)) = [] := by
    apply List.filter_eq_nil_iff.mpr
    intro p hp hall
    have := List.all_eq_true.mp hall p.1 (hextra p hp)
    simp at this
  rw [h1, h2, List.append_nil]

/-- C2 counterexample: on the list setting `c.l` with value `["a", "b"]`,
`add l a` then `remove l a` yields `["b", "a"]`, not the pre-add value
`["a", "b"]`: `remove` deletes the *first* occurrence, so the claim's
"regardless of the value held before the add (including lists that already
contained some of the added elements)" fails. -/
theorem c2_counterexample :
    addOp stC2 ["l", "a"]
      = some (0, [("c", [("l", ⟨"dl", none, .list ["a", "b", "a"], .list⟩)])], true) ∧
    removeOp [("c", [("l", ⟨"dl", none, .list ["a", "b", "a"], .list⟩)])] ["l", "a"]
      = some (0, [("c", [("l", ⟨"dl", none, .list ["b", "a"], .list⟩)])], true) ∧
    getSettingValue stC2 "c" "l" = some (.list ["a", "b"]) ∧
    SettingValue.list ["b", "a"] ≠ SettingValue.list ["a", "b"] :=
  ⟨rfl, rfl, rfl, by decide⟩

/-- C2 amended: `add` followed by `remove` of the same elements (for dict
kind, removing by the added entries' keys) restores the value, provided
none of the added list elements was already present in the list, resp. none
of the added keys was already bound in the dict. -/
theorem c2_add_remove_restore :
    (∀ (st : SettingsState) (name v1 : String) (rest : List String) (c s : String)
        (setting : Setting) (xs : List String),
        resolveSetting st name false = .found c s →
        getSetting st c s = some setting →
        setting.type = .list →
        setting.value = .list xs →
        (∀ y ∈ v1 :: rest, y ∉ xs) →
        ∃ st1, addOp st (name :: v1 :: rest) = some (0, st1, true) ∧
          ∃ st2, removeOp st1 (name :: v1 :: rest) = some (0, st2, true) ∧
            getSettingValue st2 c s = some (.list xs)) ∧
    (∀ (st : SettingsState) (name v1 : String) (rest : List String) (c s : String)
        (setting : Setting) (m : List (String × String)),
        resolveSetting st name false = .found c s →
        getSetting st c s = some setting →
        setting.type = .dict →
        setting.value = .dict m →
        (∀ v ∈ v1 :: rest, containsChar v ':' = true) →
        (∀ v ∈ v1 :: rest, List.lookup (splitKV v).1 m = none) →
        ∃ st1, addOp st (name :: v1 :: rest) = some (0, st1, true) ∧
          ∃ st2, removeOp st1 (name :: (v1 :: rest).map (fun v => (splitKV v).1))
              = some (0, st2, true) ∧
            getSettingValue st2 c s = some (.dict m)) := by
  constructor
  · intro st name v1 rest c s setting xs hres hget hty hval hfresh
    have hadd : addOp st (name :: v1 :: rest)
        = some (0, updateValue st c s (.list (xs ++ (v1 :: rest))), true) := by
      simp [addOp, hres, hget, hty, hval]
    refine ⟨_, hadd, ?_⟩
    have hres1 : resolveSetting (updateValue st c s (.list (xs ++ (v1 :: rest)))) name false
        = .found c s := by
      rw [resolveSetting_updateValue, hres]
    have hget1 : getSetting (updateValue st c s (.list (xs ++ (v1 :: rest)))) c s
        = some { setting with value := .list (xs ++ (v1 :: rest)) } := by
      rw [getSetting_updateValue_self, hget]
      rfl
    have hrlv : removeListValues (xs ++ (v1 :: rest)) (v1 :: rest) = xs := by
      rw [removeListValues_eq]
      exact foldl_erase_append _ _ hfresh
    have hrem : removeOp (updateValue st c s (.list (xs ++ (v1 :: rest)))) (name :: v1 :: rest)
        = some (0, updateValue (updateValue st c s (.list (xs ++ (v1 :: rest)))) c s
            (.list xs), true) := by
      simp [removeOp, hres1, hget1, hty, hrlv]
    refine ⟨_, hrem, ?_⟩
    rw [getSettingValue_updateValue_self _ _ _ _ (by rw [hget1]; rfl)]
  · intro st name v1 rest c s setting m hres hget hty hval hcolon hfresh
    have hinv : ((v1 :: rest).filter (fun v => !containsChar v ':')) = [] := by
      apply List.filter_eq_nil_iff.mpr
      intro v hv
      simp [hcolon v hv]
    have hadd : addOp st (name :: v1 :: rest)
        = some (0, updateValue st c s
            (.dict ((v1 :: rest).foldl (fun acc v => dictInsert acc (splitKV v)) m)), true) := by
      simp [addOp, hres, hget, hty, hval, hinv]
    have hfoldmap : (v1 :: rest).foldl (fun acc v => dictInsert acc (splitKV v)) m
        = ((v1 :: rest).map splitKV).foldl dictInsert m := by
      rw [List.foldl_map]
    obtain ⟨extra, heq, hkext⟩ :=
      foldl_dictInsert_extends ((v1 :: rest).map splitKV)
        ((v1 :: rest).map (fun v => (splitKV v).1)) m []
        (by
          intro kv hkv
          rcases List.mem_map.mp hkv with ⟨v, hv, rfl⟩
          exact hfresh v hv)
        (by
          intro kv hkv
          rcases List.mem_map.mp hkv with ⟨v, hv, rfl⟩
          exact List.mem_map.mpr ⟨v, hv, rfl⟩)
        (by intro p hp; cases hp)
    rw [List.append_nil] at heq
    have hm2 : (v1 :: rest).foldl (fun acc v => dictInsert acc (splitKV v)) m = m ++ extra := by
      rw [hfoldmap, heq]
    rw [hm2] at hadd
    refine ⟨_, hadd, ?_⟩
    have hres1 : resolveSetting (updateValue st c s (.dict (m ++ extra))) name false
        = .found c s := by
      rw [resolveSetting_updateValue, hres]
    have hget1 : getSetting (updateValue st c s (.dict (m ++ extra))) c s
        = some { setting with value := .dict (m ++ extra) } := by
      rw [getSetting_updateValue_self, hget]
      rfl
    have hrdk : removeDictKeys (m ++ extra) ((v1 :: rest).map (fun v => (splitKV v).1)) = m := by
      apply removeDictKeys_restore
      · intro p hp hpk
        rcases List.mem_map.mp hpk with ⟨v, hv, hkv⟩
        have := (lookup_eq_none_iff m (splitKV v).1).mp (hfresh v hv) p hp
        exact this hkv.symm
      · exact hkext
    have hrem : removeOp (updateValue st c s (.dict (m ++ extra)))
        (name :: (v1 :: rest).map (fun v => (splitKV v).1))
        = some (0, updateValue (updateValue st c s (.dict (m ++ extra))) c s
            (.dict m), true) := by
      simp only [List.map_cons] at hrdk ⊢
      simp [removeOp, hres1, hget1, hty, hrdk]
    refine ⟨_, hrem, ?_⟩
    rw [getSettingValue_updateValue_self _ _ _ _ (by rw [hget1]; rfl)]

/-- Witness for C2's amended statement: fresh elements and keys round-trip. -/
theorem c2_witness :
    (∃ st1, addOp stC3 ["l", "zz"] = some (0, st1, true) ∧
      ∃ st2, removeOp st1 ["l", "zz"] = some (0, st2, true) ∧
        getSettingValue st2 "c" "l" = some (.list ["a"])) ∧
    (∃ st1, addOp stC3 ["d", "k2:v2"] = some (0, st1, true) ∧
      ∃ st2, removeOp st1 ["d", "k2"] = some (0, st2, true) ∧
        getSettingValue st2 "c" "d" = some (.dict [("k", "v")])) := by
  constructor
  · exact c2_add_remove_restore.1 stC3 "l" "zz" [] "c" "l"
      ⟨"dl", none, .list ["a"], .list⟩ ["a"] rfl rfl rfl rfl (by decide)
  · exact c2_add_remove_restore.2 stC3 "d" "k2:v2" [] "c" "d"
      ⟨"dd", none, .dict [("k", "v")], .dict⟩ [("k", "v")] rfl rfl rfl rfl (by decide)
      (by decide)

/-- C6 counterexample: dispatching `run lets.verbose` forces verbose on but
hands `lets.verbose` to the handler unchanged: the deletion loop removes
only the bare `verbose` token, so the handler does see the
context-qualified form, contrary to the claim. -/
theorem c6_counterexample :
    process_arguments vsC6 stC6 ["run", "lets.verbose"]
      = (.invoke ⟨"build", "run"⟩ "run" ["lets.verbose"],
         [("lets", [("verbose", ⟨"dv", some ["on", "off"], .str "on", .scalar⟩)])]) ∧
    "lets.verbose" ∈ ["lets.verbose"] :=
  ⟨rfl, List.mem_cons_self _ _⟩

/-- C6 amended: for a uniquely resolved verb outside the `lets` context whose
name is neither `get` nor `set`, a `verbose` or `lets.verbose` token forces
the verbose setting to `"on"` for the invocation and strips every bare
`verbose` token from the handler's arguments — but `lets.verbose` tokens
are not stripped and are passed through to the handler. -/
theorem c6_verbose_partial_strip (vs : List Verb) (st : SettingsState) (v : Verb)
    (a0 : String) (rest : List String) (vset : Setting)
    (hres : resolveVerbs vs a0 = [v])
    (hctx : v.context ≠ "lets")
    (hget : v.verb ≠ "get") (hset : v.verb ≠ "set")
    (htok : "verbose" ∈ a0 :: rest ∨ "lets.verbose" ∈ a0 :: rest)
    (hvset : getSetting st "lets" "verbose" = some vset)
    (ha0 : a0 ≠ "verbose")
    (hhelp : "help" ∉ rest) :
    process_arguments vs st (a0 :: rest)
      = (.invoke v a0 (rest.filter (fun a => a != "verbose")),
         updateValue st "lets" "verbose" (.str "on")) ∧
    "verbose" ∉ rest.filter (fun a => a != "verbose") ∧
    getSettingValue (updateValue st "lets" "verbose" (.str "on")) "lets" "verbose"
      = some (.str "on") ∧
    ("lets.verbose" ∈ rest → "lets.verbose" ∈ rest.filter (fun a => a != "verbose")) := by
  have hb1 : (v.context != "lets") = true := bne_iff_ne.mpr hctx
  have hb2 : (v.verb == "get" || v.verb == "set") = false := by
    simp [hget, hset]
  have hb3 : ((a0 :: rest).contains "verbose" || (a0 :: rest).contains "lets.verbose") = true := by
    rcases htok with h | h <;> simp [h]
  have hstrip : stripVerbose (a0 :: rest) = a0 :: rest.filter (fun a => a != "verbose") := by
    unfold stripVerbose
    rw [List.filter_cons, if_pos (bne_iff_ne.mpr ha0)]
  have hhelp2 : ((rest.filter (fun a => a != "verbose")).contains "help") = false := by
    have : "help" ∉ rest.filter (fun a => a != "verbose") :=
      fun hmem => hhelp (List.mem_of_mem_filter hmem)
    simp [this]
  refine ⟨?_, ?_, ?_, ?_⟩
  · simp only [process_arguments, hres]
    rw [hb1, hb2, hb3]
    simp only [Bool.not_false, Bool.and_true, Bool.true_and, Bool.and_self, if_true, hvset]
    rw [hstrip]
    unfold finishDispatch
    simp only [List.tail_cons]
    rw [hhelp2]
    rfl
  · intro hmem
    have := (List.mem_filter.mp hmem).2
    simp at this
  · rw [getSettingValue_updateValue_self _ _ _ _ (by rw [hvset]; rfl)]
  · intro hmem
    exact List.mem_filter.mpr ⟨hmem, by decide⟩

/-- Witness for C6's amended statement on the concrete dispatcher state. -/
theorem c6_witness :
    (process_arguments vsC6 stC6 ["run", "lets.verbose"]
      = (.invoke ⟨"build", "run"⟩ "run" (["lets.verbose"].filter (fun a => a != "verbose")),
         updateValue stC6 "lets" "verbose" (.str "on")) ∧
     "verbose" ∉ ["lets.verbose"].filter (fun a => a != "verbose") ∧
     getSettingValue (updateValue stC6 "lets" "verbose" (.str "on")) "lets" "verbose"
       = some (.str "on") ∧
     ("lets.verbose" ∈ ["lets.verbose"] →
       "lets.verbose" ∈ ["lets.verbose"].filter (fun a => a != "verbose"))) :=
  c6_verbose_partial_strip vsC6 stC6 ⟨"build", "run"⟩ "run" ["lets.verbose"]
    ⟨"dv", some ["on", "off"], .str "off", .scalar⟩ rfl (by decide) (by decide) (by decide)
    (Or.inr (by decide)) rfl (by decide) (by decide)

theorem getInsert_origin (st : SettingsState) (res : List (String × SettingValue))
    (p : String × String) (h : ∀ q ∈ res, resultFromSetting st q) :
    ∀ q ∈ getInsert st res p, resultFromSetting st q := by
  intro q hq
  unfold getInsert at hq
  split at hq
  · exact h q hq
  · rename_i hprot
    cases hg : getSettingValue st p.1 p.2 with
    | none => rw [hg] at hq; exact h q hq
    | some v =>
      rw [hg] at hq
      dsimp only at hq
      unfold dictInsertV at hq
      by_cases hany : (res.any fun r => r.1 == p.1 ++ "." ++ p.2) = true
      · rw [if_pos hany] at hq
        rcases List.mem_map.mp hq with ⟨r, hr, hre⟩
        by_cases hrk : r.1 == (p.1 ++ "." ++ p.2)
        · rw [if_pos hrk] at hre
          rw [← hre]
          exact ⟨p.1, p.2, by simpa using hprot, hg, rfl⟩
        · rw [if_neg hrk] at hre
          rw [← hre]
          exact h r hr
      · rw [if_neg hany] at hq
        rcases List.mem_append.mp hq with h1 | h2
        · exact h q h1
        · rw [List.mem_singleton.mp h2]
          exact ⟨p.1, p.2, by simpa using hprot, hg, rfl⟩

theorem foldl_getInsert_origin (st : SettingsState) (pairs : List (String × String)) :
    ∀ res, (∀ q ∈ res, resultFromSetting st q) →
      ∀ q ∈ pairs.foldl (getInsert st) res, resultFromSetting st q := by
  induction pairs with
  | nil => intro res h; exact h
  | cons p ps ih =>
    intro res h
    rw [List.foldl_cons]
    exact ih _ (getInsert_origin st res p h)

theorem getStep_origin (st : SettingsState) (res : List (String × SettingValue)) (arg : String)
    (res2 : List (String × SettingValue)) (h : getStep st res arg = .ok res2)
    (hres : ∀ q ∈ res, resultFromSetting st q) :
    ∀ q ∈ res2, resultFromSetting st q := by
  unfold getStep at h
  split at h
  · cases h
  · rename_i p ps hm
    injection h with h
    rw [← h]
    exact foldl_getInsert_origin st (p :: ps) res hres

theorem foldlM_getStep_origin (st : SettingsState) (args : List String) :
    ∀ res res2, List.foldlM (getStep st) res args = .ok res2 →
      (∀ q ∈ res, resultFromSetting st q) →
      ∀ q ∈ res2, resultFromSetting st q := by
  induction args with
  | nil =>
    intro res res2 h hres
    injection h with h
    rw [← h]
    exact hres
  | cons a as ih =>
    intro res res2 h hres
    rw [List.foldlM_cons] at h
    cases hs : getStep st res a with
    | error e => rw [hs] at h; cases h
    | ok mid =>
      rw [hs] at h
      exact ih mid res2 h (getStep_origin st res a mid hs hres)

/-- C7 counterexample: naming the protected setting `c._p` explicitly does
not behave like a non-protected one: `set _p v` fails with `-1` (the shared
resolver rejects protected names) while `set q v` succeeds, and `get _p`
crashes rather than printing the setting. -/
theorem c7_counterexample :
    setOp stC7 ["_p", "v"] = some (-1, stC7, false) ∧
    setOp stC7 ["q", "v"] = some (0, updateValue stC7 "c" "q" (.str "v"), true) ∧
    getOp stC7 ["_p"] = none :=
  ⟨rfl, rfl, rfl⟩

/-- C7 amended: protected (underscore-prefixed) settings are excluded from
the no-argument listings of `get` and `help` (indeed from every `get`
result), and the CLI `set` rejects them with `-1`; they remain accessible
only through the programmatic accessors `set_setting`/`get_setting`, whose
resolution allows protected names. -/
theorem c7_protected_hidden :
    (∀ (st : SettingsState) (args : List String) (code : Int)
        (res : List (String × SettingValue)),
        getOp st args = some (code, res) → ∀ q ∈ res, resultFromSetting st q) ∧
    (∀ (st : SettingsState) (p : String × String), p ∈ helpListedSettings st →
        ∃ c ss s setting, (c, ss) ∈ st ∧ (s, setting) ∈ ss ∧ underscored s = false ∧
          p = (c ++ "." ++ s, setting.description)) ∧
    (∀ (st : SettingsState) (name v1 : String) (rest : List String),
        underscored (splitQualified name).2 = true →
        setOp st (name :: v1 :: rest) = some (-1, st, false)) ∧
    (∀ (st : SettingsState) (name c s : String) (setting : Setting) (v : SettingValue),
        underscored (splitQualified name).2 = true →
        settingCandidates st (splitQualified name).1 (splitQualified name).2 = [(c, s)] →
        getSetting st c s = some setting →
        valueEq setting.value v = false →
        set_setting st name v = (none, updateValue st c s v, true) ∧
        get_setting st c s = some setting.value) := by
  refine ⟨?_, ?_, ?_, ?_⟩
  · intro st args code res h
    simp only [getOp] at h
    cases hfold : List.foldlM (getStep st) ([] : List (String × SettingValue))
        (if args.isEmpty then allSettingNames st else args) with
    | error e =>
      rw [hfold] at h
      dsimp only at h
      injection h with h
      rw [← (Prod.mk.injEq _ _ _ _ |>.mp h).2]
      intro q hq
      cases hq
    | ok results =>
      rw [hfold] at h
      dsimp only at h
      split at h
      · cases h
      · injection h with h
        rw [← (Prod.mk.injEq _ _ _ _ |>.mp h).2]
        exact foldlM_getStep_origin st _ [] results hfold (fun q hq => by cases hq)
  · intro st p hp
    unfold helpListedSettings at hp
    rcases List.mem_flatMap.mp hp with ⟨entry, hentry, hinner⟩
    rcases List.mem_filterMap.mp hinner with ⟨q, hq, hqe⟩
    by_cases hu : underscored q.1 = true
    · rw [if_pos hu] at hqe
      cases hqe
    · rw [if_neg hu] at hqe
      injection hqe with hqe
      exact ⟨entry.1, entry.2, q.1, q.2, hentry, hq, by simpa using hu, by rw [← hqe]⟩
  · intro st name v1 rest h
    have hres : resolveSetting st name false = .protectedRejected := by
      simp only [resolveSetting]
      rw [h]
      rfl
    simp [setOp, hres]
  · intro st name c s setting v hu hcand hget hneq
    have hres : resolveSetting st name true = .found c s := by
      simp only [resolveSetting, Bool.not_true, Bool.and_false, Bool.false_eq_true, if_false]
      rw [hcand]
    constructor
    · simp [set_setting, hres, hget, hneq]
    · unfold get_setting getSettingValue
      rw [hget]
      rfl

/-- Witness for C7's amended statement on the concrete protected registry. -/
theorem c7_witness :
    (∃ c ss s setting, (c, ss) ∈ stC7 ∧ (s, setting) ∈ ss ∧ underscored s = false ∧
        (("c.q", "dq") : String × String) = (c ++ "." ++ s, setting.description)) ∧
    setOp stC7 ["_p", "v"] = some (-1, stC7, false) ∧
    set_setting stC7 "_p" (.str "v") = (none, updateValue stC7 "c" "_p" (.str "v"), true) ∧
    get_setting stC7 "c" "_p" = some (.str "s") := by
  refine ⟨?_, ?_, ?_, ?_⟩
  · exact c7_protected_hidden.2.1 stC7 ("c.q", "dq") (by decide)
  · exact c7_protected_hidden.2.2.1 stC7 "_p" "v" [] rfl
  · exact (c7_protected_hidden.2.2.2 stC7 "_p" "c" "_p"
      ⟨"dp", none, .str "s", .scalar⟩ (.str "v") rfl rfl rfl rfl).1
  · exact (c7_protected_hidden.2.2.2 stC7 "_p" "c" "_p"
      ⟨"dp", none, .str "s", .scalar⟩ (.str "v") rfl rfl rfl rfl).2

end Lets
